import Mathlib

/-!
Shallow embedding of the data-aggregation core of the SOJ internal-website
HR metrics dashboard (JavaScript), together with proofs about the claims of
its specification.

Modelling conventions:
* JavaScript numbers are modelled as exact rationals (`Rat`).  All numeric
  values appearing in the dashboard (hours, rates, costs) are small decimal
  values for which IEEE-754 double arithmetic coincides with exact rational
  arithmetic in every computation the theorems below touch.
* JavaScript plain objects used as dictionaries are modelled as association
  lists in insertion order (`List (String × α)`) with `alookup`, `setKey`
  and `modifyKey` mirroring property read, property assignment and in-place
  property mutation.
* A thrown JavaScript error is modelled with `Except JsError`; the error
  kind (`TypeError` vs the dashboard's own `ValidationError` class) is the
  `JsError` constructor.
* `Option String` models a field that may be `undefined` in a duck-typed
  row object.
-/

attribute [local semireducible] Rat.add Rat.mul Rat.sub Rat.inv

namespace SOJ

/-! ## JavaScript object / value model -/

/-- Property read on a JS object modelled as an insertion-ordered
association list: first matching key, `none` when absent (undefined). -/
def alookup (k : String) : List (String × α) → Option α
  | [] => none
  | p :: ps => if p.1 = k then some p.2 else alookup k ps

/-- Property assignment `obj[k] = v` on a JS object: overwrite in place if
the key exists (keeping insertion order), otherwise append. -/
def setKey (l : List (String × α)) (k : String) (v : α) : List (String × α) :=
  if l.any (fun p => p.1 = k) then
    l.map (fun p => if p.1 = k then (k, v) else p)
  else l ++ [(k, v)]

/-- In-place mutation `obj[k] = f(obj[k])` of an existing property; no-op
when the key is absent. -/
def modifyKey (l : List (String × α)) (k : String) (f : α → α) : List (String × α) :=
  l.map (fun p => if p.1 = k then (p.1, f p.2) else p)

/-- JS `Math.round`: round half toward positive infinity. -/
def jsMathRound (q : Rat) : Int := (q + 1/2).num.fdiv ((q + 1/2).den : Int)

/-- JS `Number.prototype.toFixed(1)`, modelled as the exactly rounded
one-decimal rational (ties toward positive infinity, per the ECMAScript
`toFixed` specification); the string formatting itself is display-only. -/
def jsToFixed1 (q : Rat) : Rat := ((q * 10 + 1/2).num.fdiv ((q * 10 + 1/2).den : Int) : Int) / 10

/-! ## Configuration constants (metrics-config.js) -/

/-- Employee hourly rates (`EMPLOYEE_RATES` minus its `default` key). -/
def EMPLOYEE_RATES : List (String × Rat) :=
  [("victoria", 33/2), ("kyle", 20), ("brooke", 25), ("melanie", 25), ("austin", 35)]

/-- The `default` entry of `EMPLOYEE_RATES` (median rate). -/
def EMPLOYEE_RATES_default : Rat := 25

/-- Task categories and their associated tasks (`TASK_CATEGORIES`). -/
def TASK_CATEGORIES : List (String × List String) :=
  [("Business Development",
      ["BD - Research", "BD - Emailing", "BD - Calls", "BD - Internal Call"]),
   ("Congress",
      ["Congress - Research", "Congress - Emailing", "Congress - Calls",
       "Congress - Internal Call"]),
   ("Social Media",
      ["Social Management", "Social Content - Research", "Social Content - Scripting",
       "Social Content - Recording", "Social Content - Video Editing",
       "Social Content - Graphic Design", "Social - Internal Call"]),
   ("Influencer",
      ["Influencer Outreach", "Influencer - Internal Call"]),
   ("Newsletter",
      ["Newsletter - Writing/Editing", "Newsletter - Operations",
       "Newsletter - Internal Call"]),
   ("Miscellaneous",
      ["Misc. Content", "Misc. Research"]),
   ("Internal Operations",
      ["Internal Meetings", "Admin", "Operations", "Customer Support"]),
   ("Advertising",
      ["Ads"])]

/-- Category base colors (`CATEGORY_COLORS`). -/
def CATEGORY_COLORS : List (String × String) :=
  [("Business Development", "#4CAF50"), ("Congress", "#2196F3"),
   ("Social Media", "#FFC107"), ("Influencer", "#9C27B0"),
   ("Newsletter", "#FF5722"), ("Miscellaneous", "#607D8B"),
   ("Internal Operations", "#795548"), ("Advertising", "#E91E63")]

/-! ## Rows -/

/-- A raw time-entry row as produced by Papa Parse with `header: true`:
the `User` and `Week Range` columns plus one numeric column per task.
`User` is `Option` because a CSV may lack that column entirely
(JS `undefined`).  Task columns are an insertion-ordered map from column
name to parsed numeric value. -/
structure Row where
  User : Option String
  weekRange : String
  taskHours : List (String × Rat)
deriving Repr, DecidableEq

/-- JS `row[task] || 0`: an absent task column reads as 0.  (A present
numeric value `v ≠ 0` is truthy and kept; `0` is falsy and replaced by 0,
which is the same value.) -/
def rowHours (row : Row) (task : String) : Rat :=
  (alookup task row.taskHours).getD 0

/-! ## services/utils.js -/

/-- ASCII lowercasing, modelling `String.prototype.toLowerCase` on the
ASCII identifiers this dashboard handles. -/
def jsToLower (s : String) : String := String.mk (s.data.map Char.toLower)

/-- `s.split(sep)[0]`: the prefix of `s` before the first occurrence of the
separator character (the whole string when the separator is absent). -/
def splitFirst (sep : Char) (s : String) : String :=
  String.mk (s.data.takeWhile (fun c => c ≠ sep))

/-- Employee-key normalization used throughout the dashboard:
`name.toLowerCase().split('@')[0]`. -/
def normalizeName (s : String) : String := splitFirst '@' (jsToLower s)

/-- `getHourlyRate` (services/utils.js): a falsy argument (undefined or the
empty string) yields the default rate; otherwise the name is lowercased,
truncated at the first `@`, and looked up in `EMPLOYEE_RATES` with
`|| default` fallback (which would also replace a configured rate of 0,
since 0 is falsy — no configured rate is 0). -/
def getHourlyRate (employeeName : Option String) : Rat :=
  match employeeName with
  | none => EMPLOYEE_RATES_default
  | some s =>
    if s = "" then EMPLOYEE_RATES_default
    else
      match alookup (normalizeName s) EMPLOYEE_RATES with
      | some r => if r = 0 then EMPLOYEE_RATES_default else r
      | none => EMPLOYEE_RATES_default

/-! ## data-processor.js -/

/-- JS error kinds relevant to the embedded code.  `typeError` models the
built-in `TypeError` the runtime throws for a property access on
`undefined`; `validationError` models the dashboard's own `ValidationError`
class (utils/errors.js). -/
inductive JsError where
  | typeError (msg : String)
  | validationError (msg : String)
deriving Repr, DecidableEq

/-- The per-employee sub-bucket of a task bucket. -/
structure EmpBucket where
  hours : Rat
  cost : Rat
deriving Repr, DecidableEq

/-- One entry of `detailedTaskData`:
`{ totalHours, totalCost, byEmployee }`. -/
structure TaskBucket where
  totalHours : Rat
  totalCost : Rat
  byEmployee : List (String × EmpBucket)
deriving Repr, DecidableEq

/-- The freshly initialized bucket `{ totalHours: 0, totalCost: 0, byEmployee: {} }`. -/
def emptyTaskBucket : TaskBucket := ⟨0, 0, []⟩

/-- First loop of `calculateDetailedTaskData`: initialize one empty bucket
per entry of `taskCategories`. -/
def initTaskData (taskCategories : List String) : List (String × TaskBucket) :=
  taskCategories.foldl (fun d task => setKey d task emptyTaskBucket) []

/-- The bucket mutation at the heart of `calculateDetailedTaskData`: add
`hours` and `hours * hourlyRate` to the task bucket's totals and to its
per-employee sub-bucket (creating the sub-bucket on first contribution). -/
def bucketAdd (hours hourlyRate : Rat) (employeeName : String) (b : TaskBucket) : TaskBucket :=
  { totalHours := b.totalHours + hours
    totalCost := b.totalCost + hours * hourlyRate
    byEmployee :=
      let be :=
        if (alookup employeeName b.byEmployee).isSome then b.byEmployee
        else setKey b.byEmployee employeeName ⟨0, 0⟩
      modifyKey be employeeName
        (fun e => ⟨e.hours + hours, e.cost + hours * hourlyRate⟩) }

/-- Body of the inner `taskCategories.forEach` of `calculateDetailedTaskData`
for one row and one task: when `row[task] || 0` is positive, apply
`bucketAdd` to the task's bucket. -/
def addRowTask (row : Row) (employeeName : String) (hourlyRate : Rat)
    (d : List (String × TaskBucket)) (task : String) : List (String × TaskBucket) :=
  let hours := rowHours row task
  if hours > 0 then modifyKey d task (bucketAdd hours hourlyRate employeeName)
  else d

/-- One iteration of the outer `employeeData.forEach`: fold the inner task
loop over `taskCategories`. -/
def applyRowTasks (taskCategories : List String) (row : Row) (employeeName : String)
    (hourlyRate : Rat) (d : List (String × TaskBucket)) : List (String × TaskBucket) :=
  taskCategories.foldl (addRowTask row employeeName hourlyRate) d

/-- The `row.User.toLowerCase()` access at the top of the outer loop:
a `TypeError` when `User` is `undefined`. -/
def rowUserKey (row : Row) : Except JsError String :=
  match row.User with
  | none => .error (.typeError "Cannot read properties of undefined (reading toLowerCase)")
  | some u => .ok (normalizeName u)

/-- Outer row loop of `calculateDetailedTaskData`, threading the mutable
`detailedTaskData` object; a thrown `TypeError` aborts the whole call. -/
def calcDetailedGo (taskCategories : List String) :
    List Row → List (String × TaskBucket) → Except JsError (List (String × TaskBucket))
  | [], d => .ok d
  | row :: rest, d =>
    match rowUserKey row with
    | .error e => .error e
    | .ok employeeName =>
      calcDetailedGo taskCategories rest
        (applyRowTasks taskCategories row employeeName
          (getHourlyRate (some employeeName)) d)

/-- `calculateDetailedTaskData(employeeData, taskCategories)`
(data-processor.js): per-task totals of hours and cost with a per-employee
breakdown.  The `Except` result captures the `TypeError` thrown by
`row.User.toLowerCase()` when a row has no `User` field. -/
def calculateDetailedTaskData (employeeData : List Row) (taskCategories : List String) :
    Except JsError (List (String × TaskBucket)) :=
  calcDetailedGo taskCategories employeeData (initTaskData taskCategories)

/-- `calculateTotalsByCategory(employeeData, taskCategories)`
(data-processor.js): despite its name this computes one total of
`row[category] || 0` per entry of `taskCategories` (the task columns). -/
def calculateTotalsByCategory (employeeData : List Row) (taskCategories : List String) :
    List (String × Rat) :=
  taskCategories.foldl
    (fun totals category =>
      setKey totals category
        (employeeData.foldl (fun sum row => sum + rowHours row category) 0)) []

/-- `calculateTotalsByType(totalsByCategory)` (data-processor.js): for each
`TASK_CATEGORIES` entry, sum `totalsByCategory[category] || 0` over the
type's task list. -/
def calculateTotalsByType (totalsByCategory : List (String × Rat)) : List (String × Rat) :=
  TASK_CATEGORIES.foldl
    (fun acc tc =>
      setKey acc tc.1
        (tc.2.foldl (fun sum category => sum + (alookup category totalsByCategory).getD 0) 0))
    []

/-- One element of the pie data built by `preparePieData`. -/
structure PieSlice where
  name : String
  value : Rat
  percentage : Rat
deriving Repr, DecidableEq

/-- `preparePieData(totalsByType)` (data-processor.js): keep only strictly
positive totals and attach a one-decimal percentage of the grand total.
(In Lean `Rat` division by 0 totalizes to 0 where JS would produce
`Infinity`; the theorems below show the guard keeps emitted entries
strictly positive, and under nonnegative inputs the denominator is then
positive, so the divergent case is never hit by an emitted entry.) -/
def preparePieData (totalsByType : List (String × Rat)) : List PieSlice :=
  let totalHours := (totalsByType.map (fun p => p.2)).sum
  (totalsByType.filter (fun p => p.2 > 0)).map
    (fun p => { name := p.1, value := p.2, percentage := jsToFixed1 (p.2 / totalHours * 100) })

/-! ## Week-range parsing and filtering (services/utils.js)

`parseStartDateFromWeekRange` applies the regex `/([A-Za-z]+)\s+(\d+)/`,
looks the captured month name up in a three-letter month map, and builds
`new Date(year, monthMap[month], day)`; the year comes from `/\((\d{4})\)/`
or the current calendar year.  JS dates are modelled as `Option Int`
(milliseconds since the epoch, UTC model): `none` is an Invalid Date
(`NaN` time value), which arises when `monthMap[month]` is `undefined`
(then `new Date(year, undefined, day)` has a `NaN` month) or when the time
value overflows the ±8.64e15 ms JS date range. -/

def isAsciiLetter (c : Char) : Bool :=
  ('A' ≤ c ∧ c ≤ 'Z') ∨ ('a' ≤ c ∧ c ≤ 'z')

/-- The regex class `\s` restricted to the ASCII whitespace that can occur
in these labels. -/
def isJsWs (c : Char) : Bool := c = ' ' ∨ c = '\t' ∨ c = '\n' ∨ c = '\r'

/-- `parseInt` on a nonempty run of decimal digits. -/
def natOfDigits (cs : List Char) : Nat :=
  cs.foldl (fun n c => 10 * n + (c.toNat - '0'.toNat)) 0

/-- First match of `/([A-Za-z]+)\s+(\d+)/`: the leftmost letter run that is
followed by at least one whitespace character and then a digit, returning
the run and the digit run after the whitespace.  (Trying a start position
inside a letter run cannot succeed where the full run failed, because the
run end — where `\s+` must start — is the same, so a character-by-character
scan is equivalent to the regex's leftmost-match rule.) -/
def findMonthDay : List Char → Option (String × Nat)
  | [] => none
  | c :: cs =>
    let here : Option (String × Nat) :=
      if isAsciiLetter c then
        let letters := c :: cs.takeWhile isAsciiLetter
        let rest1 := cs.dropWhile isAsciiLetter
        let rest2 := rest1.dropWhile isJsWs
        match rest1.takeWhile isJsWs, rest2 with
        | _ :: _, d :: ds =>
          if d.isDigit then some (String.mk letters, natOfDigits ((d :: ds).takeWhile Char.isDigit))
          else none
        | _, _ => none
      else none
    match here with
    | some r => some r
    | none => findMonthDay cs

/-- First match of `/\((\d{4})\)/`: a `(`, exactly four digits, `)`. -/
def findParenYear : List Char → Option Nat
  | [] => none
  | c :: cs =>
    match c, cs with
    | '(', c1 :: c2 :: c3 :: c4 :: c5 :: _ =>
      if c1.isDigit ∧ c2.isDigit ∧ c3.isDigit ∧ c4.isDigit ∧ c5 = ')' then
        some (natOfDigits [c1, c2, c3, c4])
      else findParenYear cs
    | _, _ => findParenYear cs

/-- The `monthMap` object of `parseStartDateFromWeekRange`. -/
def monthMap : List (String × Nat) :=
  [("Jan", 0), ("Feb", 1), ("Mar", 2), ("Apr", 3), ("May", 4), ("Jun", 5),
   ("Jul", 6), ("Aug", 7), ("Sep", 8), ("Oct", 9), ("Nov", 10), ("Dec", 11)]

def isLeapYear (y : Int) : Bool := (y % 4 = 0 ∧ y % 100 ≠ 0) ∨ y % 400 = 0

/-- Cumulative days before 0-based month `m0` in year `y`. -/
def daysBeforeMonth (y : Int) (m0 : Nat) : Nat :=
  let lens : List Nat :=
    [31, if isLeapYear y then 29 else 28, 31, 30, 31, 30, 31, 31, 30, 31, 30, 31]
  (lens.take m0).sum

/-- Leap years in `[1, y]` for `y ≥ 0` (Gregorian, proleptic). -/
def leapsThrough (y : Int) : Int := y.fdiv 4 - y.fdiv 100 + y.fdiv 400

/-- Days from the epoch (1970-01-01) to the first day of year `y`. -/
def daysToYear (y : Int) : Int :=
  365 * (y - 1970) + (leapsThrough (y - 1) - leapsThrough 1969)

/-- Time value of `new Date(year, m0, day)` (UTC model), with the JS
normalizations: a year in `[0, 99]` reads as `1900 + year`, an
out-of-range `day` rolls over into adjacent months by day arithmetic, and
a time value beyond ±8.64e15 ms yields an Invalid Date. -/
def jsDateValue (year : Int) (m0 : Nat) (day : Int) : Option Int :=
  let y : Int := if 0 ≤ year ∧ year ≤ 99 then 1900 + year else year
  let ms : Int := (daysToYear y + (daysBeforeMonth y m0 : Int) + (day - 1)) * 86400000
  if ms.natAbs ≤ 8640000000000000 then some ms else none

/-- `parseStartDateFromWeekRange(weekRange)` (services/utils.js), with the
current calendar year supplied explicitly as `currentYear`.  Yields
`some 0` (the epoch, `new Date(0)`) when the month/day regex does not
match; yields `none` (Invalid Date) when the regex matches but the
captured month name is not a key of `monthMap`. -/
def parseStartDateFromWeekRange (currentYear : Int) (weekRange : String) : Option Int :=
  match findMonthDay weekRange.data with
  | none => some 0
  | some (month, day) =>
    let year : Int :=
      match findParenYear weekRange.data with
      | some y => (y : Int)
      | none => currentYear
    match alookup month monthMap with
    | some m0 => jsDateValue year m0 (day : Int)
    | none => none

/-- JS subtraction `dateA - dateB` on possibly-invalid dates: `NaN`
(modelled `none`) when either operand is invalid. -/
def jsDateSub : Option Int → Option Int → Option Int
  | some a, some b => some (a - b)
  | _, _ => none

/-- `compareWeekRanges(a, b)` (services/utils.js). -/
def compareWeekRanges (currentYear : Int) (a b : String) : Option Int :=
  jsDateSub (parseStartDateFromWeekRange currentYear a)
    (parseStartDateFromWeekRange currentYear b)

/-- JS `x >= 0` where `x` may be `NaN`: `NaN` compares false. -/
def jsGe0 : Option Int → Bool
  | some v => 0 ≤ v
  | none => false

/-- JS `x <= 0` where `x` may be `NaN`: `NaN` compares false. -/
def jsLe0 : Option Int → Bool
  | some v => v ≤ 0
  | none => false

/-- `filterDataByWeekRange(data, startWeek, endWeek)` (services/utils.js):
short-circuits to a copy of the input when both bounds are the `"all"`
sentinel, otherwise keeps rows whose parsed `Week Range` start date lies
within the requested bounds. -/
def filterDataByWeekRange (currentYear : Int) (data : List Row)
    (startWeek endWeek : String) : List Row :=
  if startWeek = "all" ∧ endWeek = "all" then data
  else
    data.filter (fun row =>
      if startWeek ≠ "all" ∧ endWeek = "all" then
        jsGe0 (compareWeekRanges currentYear row.weekRange startWeek)
      else if startWeek = "all" ∧ endWeek ≠ "all" then
        jsLe0 (compareWeekRanges currentYear row.weekRange endWeek)
      else
        jsGe0 (compareWeekRanges currentYear row.weekRange startWeek) ∧
        jsLe0 (compareWeekRanges currentYear row.weekRange endWeek))

/-! ## metrics-dashboard.js / loading-state.js -/

/-- One entry of the `detailedBreakdown` array built in
`initializeEmployeeCharts` (name, hours, cost, category type). -/
structure BreakdownEntry where
  name : String
  hours : Rat
  cost : Rat
  type : String
deriving Repr, DecidableEq

/-- The `Object.entries(TASK_CATEGORIES)` scan that finds the type of a
task; a later matching type overwrites an earlier one, and a task in no
category keeps the empty string. -/
def categoryTypeOf (taskName : String) : String :=
  TASK_CATEGORIES.foldl (fun acc tc => if taskName ∈ tc.2 then tc.1 else acc) ""

/-- The `detailedBreakdown` construction of `initializeEmployeeCharts`:
one entry per `detailedTaskData` key with positive hours, in object
insertion order. -/
def buildDetailedBreakdown (detailedTaskData : List (String × TaskBucket)) :
    List BreakdownEntry :=
  (detailedTaskData.filter (fun p => p.2.totalHours > 0)).map
    (fun p => { name := p.1, hours := p.2.totalHours, cost := p.2.totalCost,
                type := categoryTypeOf p.1 })

/-- Stable insertion of `x` into a list sorted descending by `key`:
`x` goes before the first element whose key it meets or exceeds, which is
exactly where a stable JS `sort((a, b) => key(b) - key(a))` leaves an
element relative to the ones that were behind it. -/
def sortedInsertDesc (key : α → Rat) (x : α) : List α → List α
  | [] => [x]
  | y :: ys => if key x ≥ key y then x :: y :: ys else y :: sortedInsertDesc key x ys

/-- Stable descending sort by a rational key, modelling the (stable, per
ES2019) JS `Array.prototype.sort` with comparator `(a, b) => key(b) - key(a)`. -/
def stableSortByDesc (key : α → Rat) : List α → List α
  | [] => []
  | x :: xs => sortedInsertDesc key x (stableSortByDesc key xs)

/-- The most-time-consuming-activity statistics computed by
`updateEmployeeSummary` (loading-state.js).  The function reads no display
mode: it has no such parameter and never consults the global display-mode
state, so the reported values are the same whether the dashboard shows
hours or cost. -/
structure MostTimeStats where
  mostTimeActivity : String
  mostTimeHours : Rat
  mostTimePercentage : Rat
  mostTimeCost : Rat
deriving Repr, DecidableEq

/-- Lines 1469–1483 of `updateEmployeeSummary`: sort a copy of the
breakdown by hours descending and report the first element's name, hours,
percentage of `totalHours`, and cost.  (The `cost !== undefined` fallback
to `hours * hourlyRate` in the source is dead for the one call site, which
always builds entries with a `cost` field; the entry cost is therefore a
plain field here and the fallback branch cannot fire.) -/
def updateEmployeeSummaryMostTime (detailedBreakdown : List BreakdownEntry)
    (totalHours : Rat) : MostTimeStats :=
  match (stableSortByDesc (fun e => e.hours) detailedBreakdown).head? with
  | none => ⟨"None", 0, 0, 0⟩
  | some top =>
    ⟨top.name, top.hours, jsToFixed1 (top.hours / totalHours * 100), top.cost⟩

/-! ### Weekly trend section of initializeEmployeeCharts -/

/-- `[...new Set(xs)]`: deduplication keeping first occurrences. -/
def dedupFirst (xs : List String) : List String :=
  xs.foldl (fun acc x => if x ∈ acc then acc else acc ++ [x]) []

/-- `new Date(a) - new Date(b) > 0` for the week sort, parameterized by the
host's `Date`-string parser (`none` = Invalid Date): a `NaN` comparator
result counts as equal per the ECMAScript SortCompare rules, so only a
strictly positive difference moves an element back. -/
def weekCmpPos (dateParse : String → Option Int) (a b : String) : Bool :=
  match dateParse a, dateParse b with
  | some x, some y => x > y
  | _, _ => false

/-- Stable insertion for the week sort with the JS comparator. -/
def weekSortedInsert (dateParse : String → Option Int) (x : String) :
    List String → List String
  | [] => [x]
  | y :: ys =>
    if weekCmpPos dateParse x y then y :: weekSortedInsert dateParse x ys
    else x :: y :: ys

/-- `uniqueWeeks.sort((a, b) => new Date(a) - new Date(b))`, modelled as a
stable sort by the host date parser.  (When the comparator is inconsistent
because some labels fail to parse, engines may differ; no claim below
depends on this ordering.) -/
def jsSortWeeks (dateParse : String → Option Int) : List String → List String
  | [] => []
  | x :: xs => weekSortedInsert dateParse x (jsSortWeeks dateParse xs)

/-- One Chart.js dataset of the weekly trend chart (label and one numeric
point per week; colors and line styling are display-only and omitted). -/
structure TrendDataset where
  label : String
  data : List Rat
deriving Repr, DecidableEq

inductive LevelMode where
  | category
  | task
deriving Repr, DecidableEq

inductive DisplayMode where
  | hours
  | cost
deriving Repr, DecidableEq

/-- `row[task] || 0` kept only when positive, as accumulated by the
`if (hours > 0)` guards of the trend loops. -/
def posHours (row : Row) (task : String) : Rat :=
  let h := rowHours row task
  if h > 0 then h else 0

/-- Rows of one week. -/
def weekRowsOf (rows : List Row) (week : String) : List Row :=
  rows.filter (fun row => row.weekRange = week)

/-- Hours of one category in one week (category-level trend fill loop). -/
def weekCategoryHours (rows : List Row) (week : String) (catTasks : List String) : Rat :=
  ((weekRowsOf rows week).map (fun row => (catTasks.map (posHours row)).sum)).sum

/-- Total hours of one week over every `TASK_CATEGORIES` task
(category-level trend fill loop). -/
def weekTotalHoursCat (rows : List Row) (week : String) : Rat :=
  (TASK_CATEGORIES.map (fun tc => weekCategoryHours rows week tc.2)).sum

/-- Category-level trend datasets: top-3 categories by summed weekly hours
(positive totals only, stable order) plus the synthetic total series. -/
def buildCategoryTrendDatasets (rows : List Row) (weeks : List String)
    (hourlyRate : Rat) (displayMode : DisplayMode) : List TrendDataset :=
  let categoryTotals : List (String × Rat) :=
    TASK_CATEGORIES.map (fun tc => (tc.1, (weeks.map (fun w => weekCategoryHours rows w tc.2)).sum))
  let topCategories : List String :=
    ((stableSortByDesc (fun p => p.2) (categoryTotals.filter (fun p => p.2 > 0))).take 3).map
      (fun p => p.1)
  let value (w : String) (catTasks : List String) : Rat :=
    match displayMode with
    | .hours => weekCategoryHours rows w catTasks
    | .cost => weekCategoryHours rows w catTasks * hourlyRate
  (topCategories.map (fun c =>
    { label := c,
      data := weeks.map (fun w => value w ((alookup c TASK_CATEGORIES).getD [])) })) ++
  [{ label := match displayMode with | .cost => "Total Cost" | .hours => "Total Hours",
     data := weeks.map (fun w =>
       match displayMode with
       | .hours => weekTotalHoursCat rows w
       | .cost => weekTotalHoursCat rows w * hourlyRate) }]

/-- Hours of one named activity in one week (task-level trend fill loop). -/
def weekActivityHours (rows : List Row) (week : String) (activity : String) : Rat :=
  ((weekRowsOf rows week).map (fun row => posHours row activity)).sum

/-- Total hours of one week over every task column of its rows, as the
task-level trend loop accumulates them (top activities plus the
explicitly-summed "other" columns). -/
def weekTotalHoursTask (rows : List Row) (week : String) : Rat :=
  ((weekRowsOf rows week).map (fun row => (row.taskHours.map (fun p => posHours row p.1)).sum)).sum

/-- Task-level trend datasets: the first three `detailedBreakdown` entries
(the source slices before any hours sort here) plus the total series. -/
def buildTaskTrendDatasets (rows : List Row) (weeks : List String)
    (detailedBreakdown : List BreakdownEntry) (hourlyRate : Rat)
    (displayMode : DisplayMode) : List TrendDataset :=
  let topActivities := detailedBreakdown.take 3
  (topActivities.map (fun a =>
    { label := a.name,
      data := weeks.map (fun w =>
        match displayMode with
        | .hours => weekActivityHours rows w a.name
        | .cost => weekActivityHours rows w a.name * hourlyRate) })) ++
  [{ label := match displayMode with | .cost => "Total Cost" | .hours => "Total Hours",
     data := weeks.map (fun w =>
       match displayMode with
       | .hours => weekTotalHoursTask rows w
       | .cost => weekTotalHoursTask rows w * hourlyRate) }]

/-- Result of the weekly-trend section of `initializeEmployeeCharts`:
either a rendered line chart (datasets over chronologically sorted weeks)
or the hidden-chart / no-data-message state. -/
inductive TrendOutput where
  | trendCharts (datasets : List TrendDataset) (weeks : List String)
  | noTrendData (message : String)
deriving Repr, DecidableEq

/-- The trend datasets carried by a `TrendOutput` (none in the no-data state). -/
def TrendOutput.datasetList : TrendOutput → List TrendDataset
  | .trendCharts ds _ => ds
  | .noTrendData _ => []

/-- Lines 1244–1432 of `initializeEmployeeCharts` (loading-state.js): build
the weekly trend only when the employee's filtered rows span more than one
distinct `Week Range` value; otherwise hide the chart container and show
the not-enough-data message. -/
def employeeTrendSection (employeeName : String) (employeeData : List Row)
    (detailedBreakdown : List BreakdownEntry) (hourlyRate : Rat)
    (globalLevelMode : LevelMode) (globalDisplayMode : DisplayMode)
    (dateParse : String → Option Int) : TrendOutput :=
  let uniqueWeeks := dedupFirst (employeeData.map (fun row => row.weekRange))
  if uniqueWeeks.length > 1 then
    let weeks := jsSortWeeks dateParse uniqueWeeks
    let datasets :=
      match globalLevelMode with
      | .category => buildCategoryTrendDatasets employeeData weeks hourlyRate globalDisplayMode
      | .task =>
        buildTaskTrendDatasets employeeData weeks detailedBreakdown hourlyRate globalDisplayMode
    .trendCharts datasets weeks
  else
    .noTrendData
      (if uniqueWeeks.length = 1 then
        "Weekly trend data not available - " ++ employeeName ++
          " only has data for one week (" ++ uniqueWeeks.headD "" ++ ")"
      else "No data available for the selected date range.")

/-! ## Color assignment (chart-renderer.js) -/

/-- Value of one hex digit, case-insensitive as in `parseInt(s, 16)`. -/
def hexCharVal (c : Char) : Option Nat :=
  if '0' ≤ c ∧ c ≤ '9' then some (c.toNat - '0'.toNat)
  else if 'a' ≤ c ∧ c ≤ 'f' then some (c.toNat - 'a'.toNat + 10)
  else if 'A' ≤ c ∧ c ≤ 'F' then some (c.toNat - 'A'.toNat + 10)
  else none

/-- `parseInt(hex.substring(i, i+2), 16)`: parse the longest valid prefix
of the (up to) two characters at `i`; `none` is `NaN`. -/
def parseHexPair (cs : List Char) (i : Nat) : Option Nat :=
  match cs.get? i with
  | none => none
  | some a =>
    match hexCharVal a with
    | none => none
    | some x =>
      match cs.get? (i + 1) with
      | none => some x
      | some b =>
        match hexCharVal b with
        | none => some x
        | some y => some (16 * x + y)

/-- One lowercase hex digit, as produced by `Number.prototype.toString(16)`. -/
def hexDigitChar (n : Nat) : Char :=
  if n < 10 then Char.ofNat ('0'.toNat + n) else Char.ofNat ('a'.toNat + (n - 10))

/-- `v.toString(16).padStart(2, '0')` for a channel value in `[0, 255]`:
two lowercase hex digits. -/
def encodeHexByte (v : Int) : String :=
  String.mk [hexDigitChar (v.toNat / 16), hexDigitChar (v.toNat % 16)]

/-- One channel of `adjustColor`: scale by `(100 + percent) / 100`,
`Math.round`, clamp to `[0, 255]`; `NaN` (an unparseable channel)
propagates. -/
def adjustChannel (percent : Int) (v : Option Nat) : Option Int :=
  v.map (fun r => min 255 (max 0 (jsMathRound ((r : Rat) * ((100 + percent : Int) : Rat) / 100))))

/-- `NaN.toString(16)` renders as the string `NaN` (and `padStart(2, '0')`
leaves it alone). -/
def renderChannel : Option Int → String
  | none => "NaN"
  | some v => encodeHexByte v

/-- `adjustColor(hex, percent)` (chart-renderer.js): strip a leading `#`,
parse the three channel pairs, scale each by `(100 + percent) / 100`,
round, clamp to `[0, 255]`, and re-encode as lowercase hex. -/
def adjustColor (hex : String) (percent : Int) : String :=
  let cs := match hex.data with
    | '#' :: rest => rest
    | other => other
  "#" ++ renderChannel (adjustChannel percent (parseHexPair cs 0)) ++
    renderChannel (adjustChannel percent (parseHexPair cs 2)) ++
    renderChannel (adjustChannel percent (parseHexPair cs 4))

/-- The per-task percentage adjustment computed inside
`initializeColorCaches`: 0 for a single-task category, otherwise
`(index - floor(length / 2)) * 15`. -/
def taskPercentAdjustment (numTasks : Nat) (index : Nat) : Int :=
  if numTasks = 1 then 0 else ((index : Int) - (numTasks / 2 : Nat)) * 15

/-- `CATEGORY_COLOR_CACHE` as filled by `initializeColorCaches`: base color
plus the fixed `CC` (80%) alpha suffix.  (The `!baseColor` validity throw
of the source is unreachable on the embedded concrete configuration, whose
colors are all nonempty strings.) -/
def CATEGORY_COLOR_CACHE : List (String × String) :=
  CATEGORY_COLORS.foldl (fun acc p => setKey acc p.1 (p.2 ++ "CC")) []

/-- `CATEGORY_BORDER_COLOR_CACHE` as filled by `initializeColorCaches`. -/
def CATEGORY_BORDER_COLOR_CACHE : List (String × String) :=
  CATEGORY_COLORS.foldl (fun acc p => setKey acc p.1 p.2) []

/-- The task-color loop of `initializeColorCaches`, producing the border
(opaque) cache; a category with no configured base color is skipped. -/
def TASK_BORDER_COLOR_CACHE : List (String × String) :=
  TASK_CATEGORIES.foldl
    (fun acc tc =>
      match alookup tc.1 CATEGORY_COLORS with
      | none => acc
      | some baseColor =>
        tc.2.enum.foldl
          (fun acc2 it =>
            setKey acc2 it.2 (adjustColor baseColor (taskPercentAdjustment tc.2.length it.1)))
          acc)
    []

/-- `TASK_COLOR_CACHE` (fill colors): the adjusted color with the `CC`
alpha suffix. -/
def TASK_COLOR_CACHE : List (String × String) :=
  TASK_CATEGORIES.foldl
    (fun acc tc =>
      match alookup tc.1 CATEGORY_COLORS with
      | none => acc
      | some baseColor =>
        tc.2.enum.foldl
          (fun acc2 it =>
            setKey acc2 it.2
              (adjustColor baseColor (taskPercentAdjustment tc.2.length it.1) ++ "CC"))
          acc)
    []

/-- `getTaskBorderColor` (chart-renderer.js): cached color or the neutral
gray fallback. -/
def getTaskBorderColor (task : String) : String :=
  (alookup task TASK_BORDER_COLOR_CACHE).getD "#cccccc"

/-- The RGB triple denoted by a hex color string (after stripping `#`),
used to compare colors up to hex-digit letter case. -/
def rgbOf (hex : String) : Option Nat × Option Nat × Option Nat :=
  let cs := match hex.data with
    | '#' :: rest => rest
    | other => other
  (parseHexPair cs 0, parseHexPair cs 2, parseHexPair cs 4)

/-! ## Specification-side definitions

These restate, in direct recursive form, the behaviours the claims
describe; the theorems below relate them to the embedded source
functions. -/

/-- The first element of maximal key: the element the claims mean by
"maximum, ties broken by first-encountered order". -/
def firstMaxBy (key : α → Rat) : List α → Option α
  | [] => none
  | x :: xs =>
    match firstMaxBy key xs with
    | none => some x
    | some m => if key m > key x then some m else some x

/-- The claim's description of `getHourlyRate`: default for an absent or
empty name, otherwise lowercase, truncate at the first `@`, and look the
key up with a plain default fallback. -/
def getHourlyRateClaim (employeeName : Option String) : Rat :=
  match employeeName with
  | none => EMPLOYEE_RATES_default
  | some s =>
    if s = "" then EMPLOYEE_RATES_default
    else (alookup (splitFirst '@' (jsToLower s)) EMPLOYEE_RATES).getD EMPLOYEE_RATES_default

/-- Per-row hours contribution of one task column, as the claims describe
the bucket totals (rows with nonpositive hours contribute nothing). -/
def rowRate (row : Row) : Rat :=
  match row.User with
  | some u => getHourlyRate (some (normalizeName u))
  | none => 0

/-- Per-row cost contribution of one task column:
`hours × hourlyRate(employee)` for a contributing row, 0 otherwise. -/
def taskCostContrib (row : Row) (t : String) : Rat :=
  if rowHours row t > 0 then rowHours row t * rowRate row else 0

/-- Every task name of every category, in configuration order
(the flattening of `TASK_CATEGORIES`). -/
def allCategoryTasks : List String := (TASK_CATEGORIES.map (fun tc => tc.2)).flatten

/-- The effect of one row's inner task loop on one task bucket: apply
`bucketAdd` when the row has positive hours for the task, else leave it. -/
def taskStep (row : Row) (employeeName : String) (hourlyRate : Rat) (task : String)
    (b : TaskBucket) : TaskBucket :=
  if rowHours row task > 0 then bucketAdd (rowHours row task) hourlyRate employeeName b
  else b

/-- One row's effect on one task bucket with the employee key and rate the
outer loop derives from `row.User`. -/
def rowTaskStep (row : Row) (task : String) (b : TaskBucket) : TaskBucket :=
  match row.User with
  | some u => taskStep row (normalizeName u) (getHourlyRate (some (normalizeName u))) task b
  | none => b

/-- Total of one task column over a row set (the value
`calculateTotalsByCategory` computes per task). -/
def rowsTotal (rows : List Row) (t : String) : Rat :=
  (rows.map (fun row => rowHours row t)).sum

/-- The per-type sum `calculateTotalsByType` computes from a totals map. -/
def typeSum (catTasks : List String) (tbc : List (String × Rat)) : Rat :=
  (catTasks.map (fun c => (alookup c tbc).getD 0)).sum

/-- Whether the trend output is the hidden-chart / no-data-message state. -/
def TrendOutput.isNoData : TrendOutput → Bool
  | .trendCharts _ _ => false
  | .noTrendData _ => true

/-! ## Lemmas about the JS object model -/

theorem alookup_append (k : String) (l₁ l₂ : List (String × α)) :
    alookup k (l₁ ++ l₂) =
      match alookup k l₁ with
      | some v => some v
      | none => alookup k l₂ := by
  induction l₁ with
  | nil => simp [alookup]
  | cons p ps ih =>
    by_cases h : p.1 = k <;> simp [alookup, h, ih]

theorem alookup_eq_none_of_any_false {k : String} {l : List (String × α)}
    (h : l.any (fun p => p.1 = k) = false) : alookup k l = none := by
  induction l with
  | nil => rfl
  | cons p ps ih =>
    simp only [List.any_cons, Bool.or_eq_false_iff, decide_eq_false_iff_not] at h
    simp [alookup, h.1, ih h.2]

theorem alookup_map_overwrite (k k' : String) (v : α) (l : List (String × α)) :
    alookup k (l.map (fun p => if p.1 = k' then (k', v) else p)) =
      if k' = k then (if l.any (fun p => p.1 = k') then some v else none)
      else alookup k l := by
  induction l with
  | nil => simp [alookup]
  | cons p ps ih =>
    by_cases hp : p.1 = k'
    · by_cases hk : k' = k
      · subst hk
        simp [alookup, hp]
      · have hpk : ¬ p.1 = k := fun he => hk (hp ▸ he)
        simp only [List.map_cons, if_pos hp, alookup, if_neg hk] at *
        simp [alookup, hk, hpk, ih]
    · by_cases hpk : p.1 = k
      · have hk : ¬ k' = k := fun he => hp (he ▸ hpk)
        have hk2 : ¬ k = k' := fun he => hk he.symm
        simp [alookup, hp, hpk, hk, hk2]
      · by_cases hk : k' = k
        · subst hk
          simp only [List.map_cons, if_neg hp, List.any_cons, decide_eq_false hp, Bool.false_or]
          simp [alookup, hpk, ih]
        · simp [alookup, hp, hpk, hk, ih]

theorem alookup_setKey (k k' : String) (v : α) (l : List (String × α)) :
    alookup k (setKey l k' v) = if k' = k then some v else alookup k l := by
  unfold setKey
  by_cases hany : l.any (fun p => p.1 = k') = true
  · rw [if_pos hany, alookup_map_overwrite, hany]
    simp
  · simp only [Bool.not_eq_true] at hany
    rw [if_neg (by simp [hany]), alookup_append]
    by_cases hk : k' = k
    · subst hk
      rw [alookup_eq_none_of_any_false hany]
      simp [alookup]
    · cases h : alookup k l with
      | none => simp [alookup, hk]
      | some w => simp [hk]

theorem alookup_modifyKey (k k' : String) (f : α → α) (l : List (String × α)) :
    alookup k (modifyKey l k' f) =
      if k' = k then (alookup k l).map f else alookup k l := by
  induction l with
  | nil => simp [alookup, modifyKey]
  | cons p ps ih =>
    by_cases hp : p.1 = k'
    · by_cases hk : k' = k
      · subst hk
        simp [alookup, modifyKey, hp]
      · have hpk : ¬ p.1 = k := fun he => hk (hp ▸ he)
        have hk2 : ¬ k = k' := fun he => hk he.symm
        simp only [modifyKey, List.map_cons, if_pos hp, alookup, hpk, if_neg hpk, if_neg hk]
        simpa [modifyKey, hk] using ih
    · by_cases hpk : p.1 = k
      · have hk : ¬ k' = k := fun he => hp (he ▸ hpk)
        simp only [modifyKey, List.map_cons, if_neg hp, alookup, if_pos hpk, if_neg hk]
      · simp only [modifyKey, List.map_cons, if_neg hp, alookup, if_neg hpk]
        simpa [modifyKey] using ih

theorem alookup_mem {k : String} {v : α} {l : List (String × α)}
    (h : alookup k l = some v) : (k, v) ∈ l := by
  induction l with
  | nil => simp [alookup] at h
  | cons p ps ih =>
    obtain ⟨a, b⟩ := p
    by_cases hp : a = k
    · simp only [alookup, if_pos hp] at h
      simp only [Option.some.injEq] at h
      simp [List.mem_cons, hp, h]
    · simp only [alookup, if_neg hp] at h
      exact List.mem_cons_of_mem _ (ih h)

theorem setKey_fresh (l : List (String × α)) (k : String) (v : α)
    (h : l.any (fun p => p.1 = k) = false) : setKey l k v = l ++ [(k, v)] := by
  simp [setKey, h]

/-- Folding fresh `setKey`s over keys none of which occur in the
accumulator builds the corresponding association list by appending. -/
theorem foldl_setKey_eq_append (key : α → String) (val : α → β) :
    ∀ (xs : List α) (acc : List (String × β)),
      (xs.map key).Nodup →
      (∀ x ∈ xs, acc.any (fun p => p.1 = key x) = false) →
      xs.foldl (fun d x => setKey d (key x) (val x)) acc =
        acc ++ xs.map (fun x => (key x, val x)) := by
  intro xs
  induction xs with
  | nil => simp
  | cons x xs ih =>
    intro acc hnd hfresh
    simp only [List.map_cons, List.nodup_cons] at hnd
    simp only [List.foldl_cons]
    rw [setKey_fresh acc (key x) (val x) (hfresh x (List.mem_cons_self x xs))]
    rw [ih (acc ++ [(key x, val x)]) hnd.2 ?_]
    · simp
    · intro y hy
      have h1 : acc.any (fun p => p.1 = key y) = false :=
        hfresh y (List.mem_cons_of_mem x hy)
      have h2 : ¬ key x = key y := by
        intro he
        exact hnd.1 (he ▸ List.mem_map_of_mem key hy)
      simp [List.any_append, h1, h2]

theorem alookup_map_mk (f : String → α) (ks : List String) (k : String) :
    alookup k (ks.map (fun x => (x, f x))) = if k ∈ ks then some (f k) else none := by
  induction ks with
  | nil => simp [alookup]
  | cons x xs ih =>
    by_cases hx : x = k
    · subst hx
      simp [alookup]
    · simp [alookup, hx, ih, Ne.symm hx]

/-- `foldl` of repeated addition is the initial value plus the sum. -/
theorem foldl_add_eq_sum (f : α → Rat) :
    ∀ (xs : List α) (a : Rat), xs.foldl (fun s x => s + f x) a = a + (xs.map f).sum := by
  intro xs
  induction xs with
  | nil => simp
  | cons x xs ih =>
    intro a
    simp [ih, add_assoc]

/-! ## Lemmas about the stable descending sort -/

theorem head?_sortedInsertDesc (key : α → Rat) (x : α) (l : List α) :
    (sortedInsertDesc key x l).head? =
      some (match l.head? with
            | none => x
            | some y => if key x ≥ key y then x else y) := by
  cases l with
  | nil => rfl
  | cons y ys =>
    by_cases h : key x ≥ key y <;> simp [sortedInsertDesc, h]

theorem sortedInsertDesc_ne_nil (key : α → Rat) (x : α) (l : List α) :
    sortedInsertDesc key x l ≠ [] := by
  cases l with
  | nil => simp [sortedInsertDesc]
  | cons y ys =>
    by_cases h : key x ≥ key y <;> simp [sortedInsertDesc, h]

theorem stableSortByDesc_eq_nil_iff (key : α → Rat) (l : List α) :
    stableSortByDesc key l = [] ↔ l = [] := by
  cases l with
  | nil => simp [stableSortByDesc]
  | cons x xs =>
    simp [stableSortByDesc, sortedInsertDesc_ne_nil]

theorem firstMaxBy_eq_none_iff (key : α → Rat) (l : List α) :
    firstMaxBy key l = none ↔ l = [] := by
  cases l with
  | nil => simp [firstMaxBy]
  | cons x xs =>
    simp only [firstMaxBy, List.cons_ne_nil, iff_false]
    cases firstMaxBy key xs with
    | none => simp
    | some m =>
      by_cases h : key m > key x <;> simp [h]

/-- The head of the stable descending sort is exactly the
first-encountered maximum. -/
theorem head?_stableSortByDesc (key : α → Rat) (l : List α) :
    (stableSortByDesc key l).head? = firstMaxBy key l := by
  induction l with
  | nil => rfl
  | cons x xs ih =>
    rw [stableSortByDesc, head?_sortedInsertDesc]
    cases hs : (stableSortByDesc key xs).head? with
    | none =>
      have hxs : xs = [] := by
        rcases hnil : stableSortByDesc key xs with _ | ⟨a, as⟩
        · exact (stableSortByDesc_eq_nil_iff key xs).mp hnil
        · rw [hnil] at hs
          simp at hs
      subst hxs
      simp [firstMaxBy]
    | some m =>
      rw [hs] at ih
      rw [firstMaxBy, ← ih]
      by_cases h : key x ≥ key m
      · have : ¬ key m > key x := not_lt.mpr h
        simp [this, h]
      · have : key m > key x := lt_of_not_ge h
        simp [this, h]

theorem firstMaxBy_mem {key : α → Rat} {l : List α} {m : α}
    (h : firstMaxBy key l = some m) : m ∈ l := by
  induction l generalizing m with
  | nil => simp [firstMaxBy] at h
  | cons x xs ih =>
    rw [firstMaxBy] at h
    cases hx : firstMaxBy key xs with
    | none =>
      rw [hx] at h
      dsimp only at h
      simp only [Option.some.injEq] at h
      simp [← h]
    | some m₀ =>
      rw [hx] at h
      dsimp only at h
      by_cases hgt : key m₀ > key x
      · rw [if_pos hgt] at h
        simp only [Option.some.injEq] at h
        exact List.mem_cons_of_mem x (ih (h ▸ hx))
      · rw [if_neg hgt] at h
        simp only [Option.some.injEq] at h
        simp [← h]

theorem firstMaxBy_ge {key : α → Rat} {l : List α} {m : α}
    (h : firstMaxBy key l = some m) : ∀ y ∈ l, key y ≤ key m := by
  induction l generalizing m with
  | nil => simp [firstMaxBy] at h
  | cons x xs ih =>
    rw [firstMaxBy] at h
    intro y hy
    rcases List.mem_cons.mp hy with hyx | hyxs
    · subst hyx
      cases hx : firstMaxBy key xs with
      | none =>
        rw [hx] at h
        dsimp only at h
        simp only [Option.some.injEq] at h
        simp [← h]
      | some m₀ =>
        rw [hx] at h
        dsimp only at h
        by_cases hgt : key m₀ > key y
        · rw [if_pos hgt] at h
          simp only [Option.some.injEq] at h
          exact le_of_lt (h ▸ hgt)
        · rw [if_neg hgt] at h
          simp only [Option.some.injEq] at h
          simp [← h]
    · cases hx : firstMaxBy key xs with
      | none =>
        have : xs = [] := (firstMaxBy_eq_none_iff key xs).mp hx
        subst this
        simp at hyxs
      | some m₀ =>
        have hle : key y ≤ key m₀ := ih hx y hyxs
        rw [hx] at h
        dsimp only at h
        by_cases hgt : key m₀ > key x
        · rw [if_pos hgt] at h
          simp only [Option.some.injEq] at h
          exact h ▸ hle
        · rw [if_neg hgt] at h
          simp only [Option.some.injEq] at h
          exact le_trans hle (h ▸ not_lt.mp hgt)

/-- The first-encountered maximum: everything strictly before it in the
list has strictly smaller key. -/
theorem firstMaxBy_first {key : α → Rat} {l : List α} {m : α}
    (h : firstMaxBy key l = some m) :
    ∃ l₁ l₂, l = l₁ ++ m :: l₂ ∧ ∀ y ∈ l₁, key y < key m := by
  induction l generalizing m with
  | nil => simp [firstMaxBy] at h
  | cons x xs ih =>
    rw [firstMaxBy] at h
    cases hx : firstMaxBy key xs with
    | none =>
      rw [hx] at h
      dsimp only at h
      simp only [Option.some.injEq] at h
      exact ⟨[], xs, by simp [← h], by simp⟩
    | some m₀ =>
      rw [hx] at h
      dsimp only at h
      by_cases hgt : key m₀ > key x
      · rw [if_pos hgt] at h
        simp only [Option.some.injEq] at h
        subst h
        obtain ⟨l₁, l₂, hsplit, hlt⟩ := ih hx
        refine ⟨x :: l₁, l₂, by simp [hsplit], ?_⟩
        intro y hy
        rcases List.mem_cons.mp hy with hyx | hyl₁
        · exact hyx ▸ hgt
        · exact hlt y hyl₁
      · rw [if_neg hgt] at h
        simp only [Option.some.injEq] at h
        exact ⟨[], xs, by simp [← h], by simp⟩

/-! ## Claim C1 -/

/-- C1: for every non-empty detailed breakdown, the most-time-consuming
activity reported by `updateEmployeeSummary` is exactly the entry with the
maximum `hours` (ties broken by first-encountered order): it is an entry of
the breakdown, no entry has more hours, every entry strictly before it has
strictly fewer hours, and the reported cost is that hours-ranked entry's
own cost.  The display mode cannot influence any of this: the source
function reads no display-mode state at all (it takes none as a parameter
and consults no global), which is why the embedded
`updateEmployeeSummaryMostTime` has no display-mode argument — cost is
reported for the hours-ranked winner, never re-ranked by cost. -/
theorem mostTimeActivity_ranked_by_hours (bd : List BreakdownEntry) (totalHours : Rat)
    (h : bd ≠ []) :
    ∃ top, firstMaxBy (fun e => e.hours) bd = some top ∧
      top ∈ bd ∧
      (∀ e ∈ bd, e.hours ≤ top.hours) ∧
      (∃ l₁ l₂, bd = l₁ ++ top :: l₂ ∧ ∀ e ∈ l₁, e.hours < top.hours) ∧
      updateEmployeeSummaryMostTime bd totalHours =
        ⟨top.name, top.hours, jsToFixed1 (top.hours / totalHours * 100), top.cost⟩ := by
  cases htop : firstMaxBy (fun e => e.hours) bd with
  | none => exact absurd ((firstMaxBy_eq_none_iff _ bd).mp htop) h
  | some top =>
    refine ⟨top, rfl, firstMaxBy_mem htop, firstMaxBy_ge htop, firstMaxBy_first htop, ?_⟩
    unfold updateEmployeeSummaryMostTime
    rw [head?_stableSortByDesc, htop]

/-- C1 witness: a concrete two-entry breakdown where the second entry has
more hours; the reported activity and cost are the hours-ranked winner's. -/
theorem mostTimeActivity_ranked_by_hours_witness :
    ([(⟨"BD - Emailing", 1, 35, "Business Development"⟩ : BreakdownEntry),
      ⟨"BD - Research", 2, 40, "Business Development"⟩] ≠ []) ∧
    (∃ top,
      firstMaxBy (fun e => e.hours)
        [(⟨"BD - Emailing", 1, 35, "Business Development"⟩ : BreakdownEntry),
         ⟨"BD - Research", 2, 40, "Business Development"⟩] = some top ∧
      top ∈ [(⟨"BD - Emailing", 1, 35, "Business Development"⟩ : BreakdownEntry),
         ⟨"BD - Research", 2, 40, "Business Development"⟩] ∧
      (∀ e ∈ [(⟨"BD - Emailing", 1, 35, "Business Development"⟩ : BreakdownEntry),
         ⟨"BD - Research", 2, 40, "Business Development"⟩], e.hours ≤ top.hours) ∧
      (∃ l₁ l₂, [(⟨"BD - Emailing", 1, 35, "Business Development"⟩ : BreakdownEntry),
         ⟨"BD - Research", 2, 40, "Business Development"⟩] = l₁ ++ top :: l₂ ∧
         ∀ e ∈ l₁, e.hours < top.hours) ∧
      updateEmployeeSummaryMostTime
        [(⟨"BD - Emailing", 1, 35, "Business Development"⟩ : BreakdownEntry),
         ⟨"BD - Research", 2, 40, "Business Development"⟩] 3 =
        ⟨top.name, top.hours, jsToFixed1 (top.hours / 3 * 100), top.cost⟩) :=
  ⟨by decide,
   mostTimeActivity_ranked_by_hours
     [⟨"BD - Emailing", 1, 35, "Business Development"⟩,
      ⟨"BD - Research", 2, 40, "Business Development"⟩] 3 (by decide)⟩

/-! ## Claim C6 -/

/-- C6: filtering with both week-range bounds at the `"all"` sentinel is
the identity on the row set — `filterDataByWeekRange` short-circuits to a
copy of its input (`[...data]`), so the same rows come back in the same
order, for every row set and every current year.  (The `"all"` week bounds
are the only inputs of this function; the employee, search and category
fields of the dashboard's filter state are consumed by other code paths
and never reach it.) -/
theorem filter_all_all_identity (currentYear : Int) (data : List Row) :
    filterDataByWeekRange currentYear data "all" "all" = data := by
  simp [filterDataByWeekRange]

/-! ## Claim C10 -/

/-- C10: `getHourlyRate` as implemented coincides everywhere with the
claim's description: the default rate for an absent (`undefined`) or empty
name, otherwise lowercase, truncate at the first `@`, and look up with the
default as fallback for unknown names.  Both sides are total functions, so
the lookup never raises and always returns a rate.  (The implementation's
`|| default` would additionally replace a configured rate of 0, but no
configured rate is 0, so the two descriptions agree on every input.) -/
theorem getHourlyRate_matches_claim (employeeName : Option String) :
    getHourlyRate employeeName = getHourlyRateClaim employeeName := by
  cases employeeName with
  | none => rfl
  | some s =>
    unfold getHourlyRate getHourlyRateClaim
    by_cases hs : s = ""
    · simp [hs]
    · simp only [if_neg hs]
      cases hl : alookup (normalizeName s) EMPLOYEE_RATES with
      | none =>
        show EMPLOYEE_RATES_default =
          (alookup (normalizeName s) EMPLOYEE_RATES).getD EMPLOYEE_RATES_default
        rw [hl]
        rfl
      | some r =>
        have hr : ¬ r = 0 := by
          simp only [EMPLOYEE_RATES, alookup] at hl
          split_ifs at hl
          all_goals injection hl with hv
          all_goals rw [← hv]
          all_goals norm_num
        show (if r = 0 then EMPLOYEE_RATES_default else r) =
          (alookup (normalizeName s) EMPLOYEE_RATES).getD EMPLOYEE_RATES_default
        rw [hl, if_neg hr]
        rfl

/-! ## Claim C8 -/

/-- C8: `preparePieData` emits only entries with strictly positive value,
so a grouping whose total is 0 never appears in the percentage-labelled
output; and whenever the input totals are nonnegative (as hours totals
are) and anything is emitted at all, the grand total used as the
percentage denominator is strictly positive, so the percentage division is
never evaluated with a zero group total on an emitted entry. -/
theorem pieData_positive_values (totalsByType : List (String × Rat)) :
    (∀ s ∈ preparePieData totalsByType, 0 < s.value) ∧
    ((∀ p ∈ totalsByType, 0 ≤ p.2) → preparePieData totalsByType ≠ [] →
      0 < ((totalsByType.map (fun p => p.2)).sum)) := by
  constructor
  · intro s hs
    unfold preparePieData at hs
    simp only [List.mem_map, List.mem_filter, decide_eq_true_eq] at hs
    obtain ⟨p, ⟨_, hpos⟩, hval⟩ := hs
    rw [← hval]
    exact hpos
  · intro hnn hne
    unfold preparePieData at hne
    rcases hfil : (totalsByType.filter (fun p => p.2 > 0)) with _ | ⟨p, ps⟩
    · rw [hfil] at hne
      simp at hne
    · have hp : p ∈ totalsByType.filter (fun p => p.2 > 0) := by
        rw [hfil]
        exact List.mem_cons_self p ps
      rw [List.mem_filter] at hp
      have hpos : 0 < p.2 := by simpa using hp.2
      have hmem : p.2 ∈ totalsByType.map (fun p => p.2) :=
        List.mem_map_of_mem _ hp.1
      have hle : p.2 ≤ (totalsByType.map (fun p => p.2)).sum := by
        refine List.single_le_sum ?_ _ hmem
        intro x hx
        obtain ⟨q, hq, hxq⟩ := List.mem_map.mp hx
        exact hxq ▸ hnn q hq
      exact lt_of_lt_of_le hpos hle

/-- C8 witness: a totals mapping with a zero and a positive grouping; the
zero grouping is not emitted, and the denominator is positive. -/
theorem pieData_positive_values_witness :
    (∀ s ∈ preparePieData [("Business Development", (5 : Rat)), ("Congress", 0)], 0 < s.value) ∧
    0 < (([("Business Development", (5 : Rat)), ("Congress", 0)].map (fun p => p.2)).sum) :=
  ⟨(pieData_positive_values [("Business Development", 5), ("Congress", 0)]).1,
   (pieData_positive_values [("Business Development", 5), ("Congress", 0)]).2
     (by decide) (by decide)⟩

/-! ## Claim C4 -/

/-- C4 counterexample: a row whose `User` field is absent makes
`calculateDetailedTaskData` fail with the runtime `TypeError` from
`row.User.toLowerCase()` — not with the dashboard's `ValidationError`
kind, which is a different constructor of `JsError`. -/
theorem missing_user_typeError_counterexample :
    calculateDetailedTaskData
        [⟨none, "Mar 10 – Mar 15 (2025)", [("BD - Research", 2)]⟩] ["BD - Research"] =
      .error (.typeError "Cannot read properties of undefined (reading toLowerCase)") := by
  rfl

/-- Helper for C4: the row loop of `calculateDetailedTaskData` aborts with
a `TypeError` as soon as it reaches a row without a `User` field. -/
theorem calcDetailedGo_typeError (tasks : List String) :
    ∀ (rows : List Row) (d : List (String × TaskBucket)),
      (∃ row ∈ rows, row.User = none) →
      ∃ msg, calcDetailedGo tasks rows d = .error (.typeError msg) := by
  intro rows
  induction rows with
  | nil =>
    intro d h
    obtain ⟨row, hmem, _⟩ := h
    simp at hmem
  | cons row rest ih =>
    intro d h
    cases hu : row.User with
    | none =>
      refine ⟨"Cannot read properties of undefined (reading toLowerCase)", ?_⟩
      simp [calcDetailedGo, rowUserKey, hu]
    | some u =>
      obtain ⟨r, hmem, hnone⟩ := h
      rcases List.mem_cons.mp hmem with hr | hr
      · rw [hr, hu] at hnone
        exact absurd hnone (by simp)
      · have := ih (applyRowTasks tasks row (normalizeName u)
          (getHourlyRate (some (normalizeName u))) d) ⟨r, hr, hnone⟩
        simpa [calcDetailedGo, rowUserKey, hu] using this

/-- C4 amended: for every row set containing a row with an absent `User`
field, aggregation fails — but with a `TypeError` (the built-in error from
calling `.toLowerCase()` on `undefined`), not with a `ValidationError`
kind.  The dashboard's `ValidationError` class is thrown elsewhere (empty
parse results, missing filter DOM elements), never here. -/
theorem missing_user_raises_typeError (rows : List Row) (tasks : List String)
    (h : ∃ row ∈ rows, row.User = none) :
    ∃ msg, calculateDetailedTaskData rows tasks = .error (.typeError msg) :=
  calcDetailedGo_typeError tasks rows (initTaskData tasks) h

/-- C4 witness: the amended theorem applied at a concrete one-row input. -/
theorem missing_user_raises_typeError_witness :
    ∃ msg,
      calculateDetailedTaskData
          [⟨none, "Mar 10 – Mar 15 (2025)", [("BD - Research", 2)]⟩] ["BD - Research"] =
        .error (.typeError msg) :=
  missing_user_raises_typeError
    [⟨none, "Mar 10 – Mar 15 (2025)", [("BD - Research", 2)]⟩] ["BD - Research"]
    ⟨⟨none, "Mar 10 – Mar 15 (2025)", [("BD - Research", 2)]⟩, by decide, rfl⟩

/-! ## Claim C5 -/

/-- C5 counterexample: the label `"March 10 – Mar 15 (2025)"` is not
parseable under the documented shape (its month word is not a three-letter
abbreviation), yet `parseStartDateFromWeekRange` does not yield the epoch:
the month/day regex still matches (capturing `"March"`), `monthMap` lookup
is `undefined`, and `new Date(year, undefined, day)` is an Invalid Date
(`NaN`), which compares as nothing at all — both `cmp >= 0` and
`cmp <= 0` are false — rather than as the earliest possible date. -/
theorem unparseable_label_not_epoch_counterexample :
    parseStartDateFromWeekRange 2025 "March 10 – Mar 15 (2025)" = none ∧
    parseStartDateFromWeekRange 2025 "March 10 – Mar 15 (2025)" ≠ some 0 ∧
    jsGe0 (compareWeekRanges 2025 "March 10 – Mar 15 (2025)" "Mar 17 – Mar 22 (2025)") = false ∧
    jsLe0 (compareWeekRanges 2025 "March 10 – Mar 15 (2025)" "Mar 17 – Mar 22 (2025)") = false := by
  refine ⟨by decide, by decide, by decide, by decide⟩

/-- C5 amended: `parseStartDateFromWeekRange` never raises (it is total),
and labels on which the month/day regex `/([A-Za-z]+)\s+(\d+)/` finds no
match at all do yield the epoch date; but a label whose matched month word
is not one of the twelve case-sensitive three-letter abbreviations yields
an Invalid Date (`NaN` time value) instead of the epoch, and such a label
compares as nothing (every comparison against it is `NaN`), not as the
earliest possible date. -/
theorem unmatched_label_parses_to_epoch (currentYear : Int) (s : String) :
    (findMonthDay s.data = none → parseStartDateFromWeekRange currentYear s = some 0) ∧
    (∀ month day, findMonthDay s.data = some (month, day) →
      alookup month monthMap = none →
      parseStartDateFromWeekRange currentYear s = none ∧
      (∀ t : String, jsGe0 (compareWeekRanges currentYear s t) = false ∧
        jsLe0 (compareWeekRanges currentYear s t) = false)) := by
  constructor
  · intro h
    unfold parseStartDateFromWeekRange
    rw [h]
  · intro month day hmd hmm
    have hparse : parseStartDateFromWeekRange currentYear s = none := by
      unfold parseStartDateFromWeekRange
      rw [hmd]
      dsimp only
      rw [hmm]
    refine ⟨hparse, ?_⟩
    intro t
    unfold compareWeekRanges
    rw [hparse]
    simp [jsDateSub, jsGe0, jsLe0]

/-- C5 witness: the amended theorem applied at a label with no month/day
match (epoch) and at a label with an unrecognized month word (Invalid
Date). -/
theorem unmatched_label_parses_to_epoch_witness :
    parseStartDateFromWeekRange 2025 "hello world" = some 0 ∧
    parseStartDateFromWeekRange 2025 "March 10 – Mar 15 (2025)" = none :=
  ⟨(unmatched_label_parses_to_epoch 2025 "hello world").1 (by decide),
   ((unmatched_label_parses_to_epoch 2025 "March 10 – Mar 15 (2025)").2
      "March" 10 (by decide) (by decide)).1⟩

/-! ## Claim C9 -/

/-- C9 counterexample: the single-task category `Advertising` has base
color `#E91E63`, but the cached task color for `Ads` is `#e91e63` — the
0%-adjusted color is re-encoded in lowercase hex, so the assigned string
is not the base color string unmodified (it only has the same RGB value). -/
theorem single_task_color_not_base_string_counterexample :
    alookup "Advertising" CATEGORY_COLORS = some "#E91E63" ∧
    ("Ads" ∈ (alookup "Advertising" TASK_CATEGORIES).getD []) ∧
    alookup "Ads" TASK_BORDER_COLOR_CACHE = some "#e91e63" ∧
    ("#e91e63" : String) ≠ "#E91E63" := by
  refine ⟨by decide, by decide, by decide, by decide⟩

/-- C9 amended: for every category with `N` tasks and every task at
0-based index `i` of its definition order, the cached colors are the
category base color adjusted by `(i - floor(N/2)) * 15` percent, where the
adjustment scales each RGB channel by `(100 + percent) / 100`, rounds,
clamps to `[0, 255]`, and re-encodes as (lowercase) hex, the fill variant
carrying the `CC` alpha suffix; a single-task category gets 0% adjustment,
which preserves the RGB channels of the base color exactly — but the
cached string is the lowercase re-encoding, so it need not be
byte-identical to the configured base color string. -/
theorem task_color_adjustment_formula (tc : String × List String)
    (htc : tc ∈ TASK_CATEGORIES) (i : Nat) (hi : i < tc.2.length) :
    alookup (tc.2.get ⟨i, hi⟩) TASK_BORDER_COLOR_CACHE =
      some (adjustColor ((alookup tc.1 CATEGORY_COLORS).getD "")
        (((i : Int) - ((tc.2.length / 2 : Nat) : Int)) * 15)) ∧
    alookup (tc.2.get ⟨i, hi⟩) TASK_COLOR_CACHE =
      some (adjustColor ((alookup tc.1 CATEGORY_COLORS).getD "")
        (((i : Int) - ((tc.2.length / 2 : Nat) : Int)) * 15) ++ "CC") ∧
    (tc.2.length = 1 →
      rgbOf (adjustColor ((alookup tc.1 CATEGORY_COLORS).getD "") 0) =
        rgbOf ((alookup tc.1 CATEGORY_COLORS).getD "")) := by
  revert i
  revert htc
  revert tc
  decide

/-- C9 witness: the amended theorem applied at the single-task category
`Advertising` (index 0 of `["Ads"]`). -/
theorem task_color_adjustment_formula_witness :
    alookup (["Ads"].get ⟨0, by decide⟩) TASK_BORDER_COLOR_CACHE =
      some (adjustColor ((alookup "Advertising" CATEGORY_COLORS).getD "")
        (((0 : Int) - ((1 / 2 : Nat) : Int)) * 15)) ∧
    alookup (["Ads"].get ⟨0, by decide⟩) TASK_COLOR_CACHE =
      some (adjustColor ((alookup "Advertising" CATEGORY_COLORS).getD "")
        (((0 : Int) - ((1 / 2 : Nat) : Int)) * 15) ++ "CC") ∧
    ((["Ads"] : List String).length = 1 →
      rgbOf (adjustColor ((alookup "Advertising" CATEGORY_COLORS).getD "") 0) =
        rgbOf ((alookup "Advertising" CATEGORY_COLORS).getD "")) :=
  task_color_adjustment_formula ("Advertising", ["Ads"]) (by decide) 0 (by decide)

/-! ## Claim C2 -/


theorem alookup_addRowTask_ne (row : Row) (en : String) (rate : Rat)
    (d : List (String × TaskBucket)) (u t : String) (h : ¬ u = t) :
    alookup t (addRowTask row en rate d u) = alookup t d := by
  unfold addRowTask
  by_cases hpos : rowHours row u > 0
  · simp only [if_pos hpos, alookup_modifyKey, if_neg h]
  · simp only [if_neg hpos]

theorem alookup_addRowTask_self (row : Row) (en : String) (rate : Rat)
    (d : List (String × TaskBucket)) (t : String) :
    alookup t (addRowTask row en rate d t) = (alookup t d).map (taskStep row en rate t) := by
  unfold addRowTask taskStep
  by_cases hpos : rowHours row t > 0
  · rw [if_pos hpos, alookup_modifyKey]
    simp [hpos]
  · simp only [if_neg hpos]
    cases alookup t d <;> rfl

theorem alookup_applyRowTasks_not_mem (row : Row) (en : String) (rate : Rat) :
    ∀ (tasks : List String) (d : List (String × TaskBucket)) (t : String),
      t ∉ tasks → alookup t (applyRowTasks tasks row en rate d) = alookup t d := by
  intro tasks
  induction tasks with
  | nil => intro d t _; rfl
  | cons u us ih =>
    intro d t ht
    have hut : ¬ u = t := fun he => ht (he ▸ List.mem_cons_self u us)
    have htus : t ∉ us := fun hm => ht (List.mem_cons_of_mem u hm)
    unfold applyRowTasks
    rw [List.foldl_cons]
    have := ih (addRowTask row en rate d u) t htus
    unfold applyRowTasks at this
    rw [this, alookup_addRowTask_ne row en rate d u t hut]

theorem alookup_applyRowTasks_mem (row : Row) (en : String) (rate : Rat) :
    ∀ (tasks : List String) (d : List (String × TaskBucket)) (t : String),
      tasks.Nodup → t ∈ tasks →
      alookup t (applyRowTasks tasks row en rate d) =
        (alookup t d).map (taskStep row en rate t) := by
  intro tasks
  induction tasks with
  | nil => intro d t _ ht; simp at ht
  | cons u us ih =>
    intro d t hnd ht
    rw [List.nodup_cons] at hnd
    unfold applyRowTasks
    rw [List.foldl_cons]
    by_cases hut : u = t
    · subst hut
      have hnm : u ∉ us := hnd.1
      have := alookup_applyRowTasks_not_mem row en rate us (addRowTask row en rate d u) u hnm
      unfold applyRowTasks at this
      rw [this, alookup_addRowTask_self]
    · have htus : t ∈ us := by
        rcases List.mem_cons.mp ht with h | h
        · exact absurd h.symm hut
        · exact h
      have := ih (addRowTask row en rate d u) t hnd.2 htus
      unfold applyRowTasks at this
      rw [this, alookup_addRowTask_ne row en rate d u t hut]

/-- The row loop succeeds on rows that all carry a `User` field, and its
effect on any one initialized task bucket is the fold of the per-row step. -/
theorem calcDetailedGo_ok_alookup (tasks : List String) (t : String)
    (hnd : tasks.Nodup) (ht : t ∈ tasks) :
    ∀ (rows : List Row) (d : List (String × TaskBucket)),
      (∀ row ∈ rows, row.User ≠ none) →
      ∃ d₂, calcDetailedGo tasks rows d = .ok d₂ ∧
        alookup t d₂ =
          (alookup t d).map (fun b => rows.foldl (fun b row => rowTaskStep row t b) b) := by
  intro rows
  induction rows with
  | nil =>
    intro d _
    refine ⟨d, rfl, ?_⟩
    cases alookup t d <;> rfl
  | cons row rest ih =>
    intro d hu
    cases hru : row.User with
    | none => exact absurd hru (hu row (List.mem_cons_self row rest))
    | some u =>
      have hrest : ∀ r ∈ rest, r.User ≠ none := fun r hr => hu r (List.mem_cons_of_mem row hr)
      obtain ⟨d₂, hgo, hlk⟩ :=
        ih (applyRowTasks tasks row (normalizeName u) (getHourlyRate (some (normalizeName u))) d)
          hrest
      refine ⟨d₂, ?_, ?_⟩
      · unfold calcDetailedGo rowUserKey
        rw [hru]
        exact hgo
      · rw [hlk, alookup_applyRowTasks_mem row _ _ tasks d t hnd ht]
        simp only [List.foldl_cons]
        cases alookup t d with
        | none => rfl
        | some b =>
          simp only [Option.map_some']
          congr 1
          unfold rowTaskStep
          rw [hru]

theorem initTaskData_eq_map (tasks : List String) (hnd : tasks.Nodup) :
    initTaskData tasks = tasks.map (fun t => (t, emptyTaskBucket)) := by
  have h := foldl_setKey_eq_append (fun t : String => t) (fun _ => emptyTaskBucket) tasks []
    (by simpa using hnd) (by intro x _; rfl)
  simpa [initTaskData] using h

theorem rowTaskStep_totalHours (row : Row) (t : String) (b : TaskBucket)
    (hu : row.User ≠ none) :
    (rowTaskStep row t b).totalHours = b.totalHours + posHours row t := by
  cases hru : row.User with
  | none => exact absurd hru hu
  | some u =>
    unfold rowTaskStep taskStep posHours bucketAdd
    rw [hru]
    by_cases hpos : rowHours row t > 0
    · simp [hpos]
    · simp [hpos]

theorem rowTaskStep_totalCost (row : Row) (t : String) (b : TaskBucket)
    (hu : row.User ≠ none) :
    (rowTaskStep row t b).totalCost = b.totalCost + taskCostContrib row t := by
  cases hru : row.User with
  | none => exact absurd hru hu
  | some u =>
    unfold rowTaskStep taskStep taskCostContrib bucketAdd rowRate
    rw [hru]
    by_cases hpos : rowHours row t > 0
    · simp [hpos]
    · simp [hpos]

theorem foldl_rowTaskStep_totalHours (t : String) :
    ∀ (rows : List Row) (b : TaskBucket), (∀ row ∈ rows, row.User ≠ none) →
      (rows.foldl (fun b row => rowTaskStep row t b) b).totalHours =
        b.totalHours + (rows.map (fun row => posHours row t)).sum := by
  intro rows
  induction rows with
  | nil => intro b _; simp
  | cons row rest ih =>
    intro b hu
    rw [List.foldl_cons,
      ih (rowTaskStep row t b) (fun r hr => hu r (List.mem_cons_of_mem row hr)),
      rowTaskStep_totalHours row t b (hu row (List.mem_cons_self row rest))]
    simp [add_assoc]

theorem foldl_rowTaskStep_totalCost (t : String) :
    ∀ (rows : List Row) (b : TaskBucket), (∀ row ∈ rows, row.User ≠ none) →
      (rows.foldl (fun b row => rowTaskStep row t b) b).totalCost =
        b.totalCost + (rows.map (fun row => taskCostContrib row t)).sum := by
  intro rows
  induction rows with
  | nil => intro b _; simp
  | cons row rest ih =>
    intro b hu
    rw [List.foldl_cons,
      ih (rowTaskStep row t b) (fun r hr => hu r (List.mem_cons_of_mem row hr)),
      rowTaskStep_totalCost row t b (hu row (List.mem_cons_self row rest))]
    simp [add_assoc]

/-- C2: for every row set whose rows carry a `User` field and every task
of a duplicate-free `taskCategories` list, the task's bucket in
`calculateDetailedTaskData` totals exactly, over the rows, the row's hours
for that task and `hours × hourlyRate(that row's employee)` — the cost is
a per-row product with the contributing row's own rate, never
`totalHours × one rate`. -/
theorem taskBucket_cost_is_per_row_rate (rows : List Row) (tasks : List String) (t : String)
    (hnd : tasks.Nodup) (hu : ∀ row ∈ rows, row.User ≠ none) (ht : t ∈ tasks) :
    ∃ d b, calculateDetailedTaskData rows tasks = .ok d ∧ alookup t d = some b ∧
      b.totalHours = (rows.map (fun row => posHours row t)).sum ∧
      b.totalCost = (rows.map (fun row => taskCostContrib row t)).sum := by
  obtain ⟨d₂, hgo, hlk⟩ := calcDetailedGo_ok_alookup tasks t hnd ht rows (initTaskData tasks) hu
  have hinit : alookup t (initTaskData tasks) = some emptyTaskBucket := by
    rw [initTaskData_eq_map tasks hnd, alookup_map_mk, if_pos ht]
  rw [hinit] at hlk
  simp only [Option.map_some'] at hlk
  refine ⟨d₂, _, hgo, hlk, ?_, ?_⟩
  · rw [foldl_rowTaskStep_totalHours t rows emptyTaskBucket hu]
    simp [emptyTaskBucket]
  · rw [foldl_rowTaskStep_totalCost t rows emptyTaskBucket hu]
    simp [emptyTaskBucket]

/-- C2 witness: the claim's concrete instance — the single row
`{User: "kyle@x.com", "BD - Research": 2, "Week Range": "Mar 10 – Mar 15 (2025)"}`
with `rate(kyle) = 20.00` gives the `BD - Research` bucket
`totalHours = 2` and `totalCost = 40.00`. -/
theorem taskBucket_cost_is_per_row_rate_witness :
    ∃ d b,
      calculateDetailedTaskData
          [⟨some "kyle@x.com", "Mar 10 – Mar 15 (2025)", [("BD - Research", 2)]⟩]
          ["BD - Research"] = .ok d ∧
      alookup "BD - Research" d = some b ∧
      b.totalHours = 2 ∧ b.totalCost = 40 := by
  obtain ⟨d, b, h1, h2, h3, h4⟩ :=
    taskBucket_cost_is_per_row_rate
      [⟨some "kyle@x.com", "Mar 10 – Mar 15 (2025)", [("BD - Research", 2)]⟩]
      ["BD - Research"] "BD - Research" (by decide) (by decide) (by decide)
  refine ⟨d, b, h1, h2, ?_, ?_⟩
  · rw [h3]
    decide
  · rw [h4]
    decide

/-! ## Claim C3 -/

/-- C3: whenever an employee's filtered rows span fewer than two distinct
`Week Range` values, the weekly-trend section builds no trend datasets and
shows the not-enough-data state; in particular a single distinct week
never produces a one-point trend series, in either level mode, either
display mode, and for any host date parser. -/
theorem trend_empty_when_fewer_than_two_weeks (employeeName : String) (rows : List Row)
    (bd : List BreakdownEntry) (rate : Rat) (lm : LevelMode) (dm : DisplayMode)
    (dateParse : String → Option Int)
    (h : (dedupFirst (rows.map (fun row => row.weekRange))).length < 2) :
    (employeeTrendSection employeeName rows bd rate lm dm dateParse).datasetList = [] ∧
    (employeeTrendSection employeeName rows bd rate lm dm dateParse).isNoData = true := by
  have hng : ¬ (dedupFirst (rows.map (fun row => row.weekRange))).length > 1 := by omega
  constructor
  · simp [employeeTrendSection, hng, TrendOutput.datasetList]
  · simp [employeeTrendSection, hng, TrendOutput.isNoData]

/-- C3 witness: a single-row (hence single-week) row set produces no
datasets and the no-data message, at task level and hours mode. -/
theorem trend_empty_when_fewer_than_two_weeks_witness :
    (employeeTrendSection "kyle"
        [⟨some "kyle@x.com", "Mar 10 – Mar 15 (2025)", [("BD - Research", 2)]⟩]
        [] 20 .task .hours (fun _ => none)).datasetList = [] ∧
    (employeeTrendSection "kyle"
        [⟨some "kyle@x.com", "Mar 10 – Mar 15 (2025)", [("BD - Research", 2)]⟩]
        [] 20 .task .hours (fun _ => none)).isNoData = true :=
  trend_empty_when_fewer_than_two_weeks "kyle"
    [⟨some "kyle@x.com", "Mar 10 – Mar 15 (2025)", [("BD - Research", 2)]⟩]
    [] 20 .task .hours (fun _ => none) (by decide)

/-! ## Claim C7 -/


theorem calculateTotalsByCategory_eq_map (rows : List Row) (tasks : List String)
    (hnd : tasks.Nodup) :
    calculateTotalsByCategory rows tasks = tasks.map (fun t => (t, rowsTotal rows t)) := by
  unfold calculateTotalsByCategory
  have hval : ∀ c : String,
      (rows.foldl (fun sum row => sum + rowHours row c) 0) = rowsTotal rows c := by
    intro c
    rw [foldl_add_eq_sum]
    simp [rowsTotal]
  simp only [hval]
  have h := foldl_setKey_eq_append (fun t : String => t) (fun t => rowsTotal rows t) tasks []
    (by simpa using hnd) (by intro x _; rfl)
  simpa using h

theorem calculateTotalsByType_eq_map (tbc : List (String × Rat)) :
    calculateTotalsByType tbc = TASK_CATEGORIES.map (fun tc => (tc.1, typeSum tc.2 tbc)) := by
  unfold calculateTotalsByType
  have hval : ∀ cats : List String,
      (cats.foldl (fun sum category => sum + (alookup category tbc).getD 0) 0) =
        typeSum cats tbc := by
    intro cats
    rw [foldl_add_eq_sum]
    simp [typeSum]
  simp only [hval]
  have h := foldl_setKey_eq_append (fun tc : String × List String => tc.1)
    (fun tc => typeSum tc.2 tbc) TASK_CATEGORIES [] (by decide) (by intro x _; rfl)
  simpa using h

theorem rowHours_nonneg (row : Row) (t : String)
    (h : ∀ p ∈ row.taskHours, 0 ≤ p.2) : 0 ≤ rowHours row t := by
  unfold rowHours
  cases hl : alookup t row.taskHours with
  | none => simp
  | some v =>
    have := h (t, v) (alookup_mem hl)
    simpa using this

theorem rowsTotal_nonneg (rows : List Row) (t : String)
    (h : ∀ row ∈ rows, ∀ p ∈ row.taskHours, 0 ≤ p.2) : 0 ≤ rowsTotal rows t := by
  unfold rowsTotal
  apply List.sum_nonneg
  intro x hx
  obtain ⟨row, hrow, hxr⟩ := List.mem_map.mp hx
  exact hxr ▸ rowHours_nonneg row t (h row hrow)

/-- Splitting a sum of guarded terms into a sum over the filtered list. -/
theorem sum_map_ite_zero (q : String → Bool) (f : String → Rat) :
    ∀ l : List String,
      (l.map (fun k => if q k = true then f k else 0)).sum = ((l.filter q).map f).sum := by
  intro l
  induction l with
  | nil => simp
  | cons x xs ih =>
    cases hq : q x <;> simp [List.filter_cons, hq, ih]

theorem sublist_sum_le {l m : List Rat} (hs : l.Sublist m) (hnn : ∀ x ∈ m, 0 ≤ x) :
    l.sum ≤ m.sum := by
  induction hs with
  | slnil => simp
  | cons a hsub ih =>
    rename_i l' m'
    have h0 : 0 ≤ a := hnn a (List.mem_cons_self a m')
    have := ih (fun x hx => hnn x (List.mem_cons_of_mem a hx))
    rw [List.sum_cons]
    linarith
  | cons₂ a hsub ih =>
    rename_i l' m'
    have := ih (fun x hx => hnn x (List.mem_cons_of_mem a hx))
    simp only [List.sum_cons]
    linarith

theorem sum_map_le_of_nodup_subset (f : String → Rat) (l₁ l₂ : List String)
    (hnd : l₁.Nodup) (hsub : ∀ x ∈ l₁, x ∈ l₂) (hnn : ∀ x ∈ l₂, 0 ≤ f x) :
    (l₁.map f).sum ≤ (l₂.map f).sum := by
  have hsp : l₁.Subperm l₂ := hnd.subperm hsub
  obtain ⟨l', hperm, hsl⟩ := hsp
  have h1 : (l₁.map f).sum = (l'.map f).sum := (hperm.map f).sum_eq.symm
  rw [h1]
  refine sublist_sum_le (hsl.map f) ?_
  intro x hx
  obtain ⟨y, hy, hxy⟩ := List.mem_map.mp hx
  exact hxy ▸ hnn y hy

theorem count_filter_eq (q : String → Bool) (a : String) :
    ∀ l : List String, (l.filter q).count a = if q a then l.count a else 0 := by
  intro l
  induction l with
  | nil => simp
  | cons x xs ih =>
    by_cases hxa : x = a
    · subst hxa
      cases hq : q x <;> simp [List.filter_cons, hq, List.count_cons, ih]
    · cases hq : q x <;>
        simp [List.filter_cons, hq, List.count_cons, ih, hxa, Ne.symm hxa]

theorem lookupOrZero_map (rows : List Row) (tasks : List String) (c : String) :
    (alookup c (tasks.map (fun t => (t, rowsTotal rows t)))).getD 0 =
      if c ∈ tasks then rowsTotal rows c else 0 := by
  rw [alookup_map_mk]
  by_cases h : c ∈ tasks <;> simp [h]

/-- C7: for every row set with nonnegative task values and duplicate-free
task list, the grand total over all task buckets bounds every single
category-type bucket from above; and when every task of the list occurs in
exactly one category of the configuration, the category-level grand total
equals the task-level grand total. -/
theorem task_total_bounds_category_total (rows : List Row) (tasks : List String)
    (hnd : tasks.Nodup)
    (hnn : ∀ row ∈ rows, ∀ p ∈ row.taskHours, 0 ≤ p.2) :
    (∀ entry ∈ calculateTotalsByType (calculateTotalsByCategory rows tasks),
      entry.2 ≤ ((calculateTotalsByCategory rows tasks).map (fun p => p.2)).sum) ∧
    ((∀ t ∈ tasks, allCategoryTasks.count t = 1) →
      ((calculateTotalsByType (calculateTotalsByCategory rows tasks)).map
          (fun p => p.2)).sum =
        ((calculateTotalsByCategory rows tasks).map (fun p => p.2)).sum) := by
  have htbc := calculateTotalsByCategory_eq_map rows tasks hnd
  have htaskGrand : ((calculateTotalsByCategory rows tasks).map (fun p => p.2)).sum =
      (tasks.map (fun t => rowsTotal rows t)).sum := by
    rw [htbc, List.map_map]
    rfl
  have htype : ∀ cats : List String,
      typeSum cats (calculateTotalsByCategory rows tasks) =
        ((cats.filter (fun c => decide (c ∈ tasks))).map (fun c => rowsTotal rows c)).sum := by
    intro cats
    unfold typeSum
    rw [htbc]
    have : ∀ c : String,
        (alookup c (tasks.map (fun t => (t, rowsTotal rows t)))).getD 0 =
          if decide (c ∈ tasks) = true then rowsTotal rows c else 0 := by
      intro c
      rw [lookupOrZero_map]
      by_cases h : c ∈ tasks <;> simp [h]
    simp only [this]
    exact sum_map_ite_zero (fun c => decide (c ∈ tasks)) (fun c => rowsTotal rows c) cats
  constructor
  · intro entry hentry
    rw [calculateTotalsByType_eq_map] at hentry
    obtain ⟨tc, htc, hval⟩ := List.mem_map.mp hentry
    have h2 : entry.2 = typeSum tc.2 (calculateTotalsByCategory rows tasks) := by
      rw [← hval]
    rw [h2, htype tc.2, htaskGrand]
    have hcatnd : tc.2.Nodup := by
      have hall : ∀ tc ∈ TASK_CATEGORIES, (tc.2 : List String).Nodup := by decide
      exact hall tc htc
    refine sum_map_le_of_nodup_subset (fun c => rowsTotal rows c) _ tasks
      (hcatnd.filter _) ?_ ?_
    · intro x hx
      have := List.of_mem_filter hx
      simpa using this
    · intro x _
      exact rowsTotal_nonneg rows x hnn
  · intro honce
    rw [calculateTotalsByType_eq_map, List.map_map, htaskGrand]
    have hmm : (TASK_CATEGORIES.map
        ((fun p : String × Rat => p.2) ∘ (fun tc => (tc.1, typeSum tc.2
          (calculateTotalsByCategory rows tasks))))).sum =
        (TASK_CATEGORIES.map (fun tc => typeSum tc.2
          (calculateTotalsByCategory rows tasks))).sum := rfl
    rw [hmm]
    simp only [htype]
    have hflat : (TASK_CATEGORIES.map (fun tc =>
        (((tc.2 : List String).filter (fun c => decide (c ∈ tasks))).map
          (fun c => rowsTotal rows c)).sum)).sum =
        ((allCategoryTasks.filter (fun c => decide (c ∈ tasks))).map
          (fun c => rowsTotal rows c)).sum := by
      unfold allCategoryTasks
      rw [List.filter_flatten, List.map_flatten, List.sum_flatten]
      simp only [List.map_map]
      rfl
    rw [hflat]
    have hperm : (allCategoryTasks.filter (fun c => decide (c ∈ tasks))).Perm tasks := by
      rw [List.perm_iff_count]
      intro a
      rw [count_filter_eq]
      by_cases ha : a ∈ tasks
      · rw [if_pos (by simpa using ha), honce a ha,
          List.count_eq_one_of_mem hnd ha]
      · rw [if_neg (by simpa using ha)]
        exact (List.count_eq_zero.mpr ha).symm
    exact (hperm.map (fun c => rowsTotal rows c)).sum_eq

/-- C7 witness: the theorem applied to the claim's concrete single-row set
(kyle's 2 hours of BD - Research), whose only task occurs in exactly one
category. -/
theorem task_total_bounds_category_total_witness :
    (∀ entry ∈ calculateTotalsByType (calculateTotalsByCategory
        [⟨some "kyle@x.com", "Mar 10 – Mar 15 (2025)", [("BD - Research", 2)]⟩]
        ["BD - Research"]),
      entry.2 ≤ ((calculateTotalsByCategory
        [⟨some "kyle@x.com", "Mar 10 – Mar 15 (2025)", [("BD - Research", 2)]⟩]
        ["BD - Research"]).map (fun p => p.2)).sum) ∧
    ((calculateTotalsByType (calculateTotalsByCategory
        [⟨some "kyle@x.com", "Mar 10 – Mar 15 (2025)", [("BD - Research", 2)]⟩]
        ["BD - Research"])).map (fun p => p.2)).sum =
      ((calculateTotalsByCategory
        [⟨some "kyle@x.com", "Mar 10 – Mar 15 (2025)", [("BD - Research", 2)]⟩]
        ["BD - Research"]).map (fun p => p.2)).sum :=
  ⟨(task_total_bounds_category_total
      [⟨some "kyle@x.com", "Mar 10 – Mar 15 (2025)", [("BD - Research", 2)]⟩]
      ["BD - Research"] (by decide) (by decide)).1,
   (task_total_bounds_category_total
      [⟨some "kyle@x.com", "Mar 10 – Mar 15 (2025)", [("BD - Research", 2)]⟩]
      ["BD - Research"] (by decide) (by decide)).2 (by decide)⟩

end SOJ
